import Mathlib

/-!
Shallow embedding of the Input Resolution & Download Session Controller of
the Chzzk downloader front end (source: `src/App.tsx`), together with
theorems settling the frozen claims about it.

JS numbers appearing in this logic only ever hold integer values or `NaN`,
so they are modelled as `Int` (or `Nat` where the source value is a
non-negative count) and, where `NaN` can arise, as `Option Int` with
`none` standing for `NaN`.  Exact rational arithmetic (`ℚ`) models the JS
divisions feeding `Math.round`.
-/

namespace Chzzk

/-! ## Models of the JS string/number primitives used by the source -/

/-- Numeric value of a decimal digit character. -/
def digitVal (c : Char) : Nat := c.toNat - 48

/-- Value of a list of decimal digit characters, most significant first. -/
def decimalValue (cs : List Char) : Nat :=
  cs.foldl (fun a c => 10 * a + digitVal c) 0

/-- White-space characters skipped by JS `parseInt`. -/
def jsWhitespaceChar (c : Char) : Bool :=
  c = ' ' ∨ c = '\t' ∨ c = '\n' ∨ c = '\r'

/-- Longest leading run of decimal digits, as a number; `none` when there is
no leading digit (JS `parseInt` then yields `NaN`). -/
def jsLeadingDigits (cs : List Char) : Option Nat :=
  match cs.takeWhile Char.isDigit with
  | [] => none
  | ds => some (decimalValue ds)

/-- Model of JS `parseInt(s)` (radix 10): skip leading white space, accept an
optional sign, then read the longest digit run; `none` models `NaN`. -/
def jsParseInt (cs : List Char) : Option Int :=
  let t := cs.dropWhile jsWhitespaceChar
  match t with
  | [] => none
  | c :: rest =>
    if c = '-' then (jsLeadingDigits rest).map (fun n => -(n : Int))
    else if c = '+' then (jsLeadingDigits rest).map (fun n => (n : Int))
    else (jsLeadingDigits (c :: rest)).map (fun n => (n : Int))

/-- Model of the source's `parseInt(p) || 0`: `NaN` is falsy, so a failed
parse falls back to `0`. -/
def parseIntOr0 (cs : List Char) : Int := (jsParseInt cs).getD 0

/-- Model of JS `String.prototype.split` with a one-character separator:
`"".split(":")` is `[""]`, and separators at the ends produce empty
segments. -/
def splitChar (sep : Char) : List Char → List (List Char)
  | [] => [[]]
  | c :: rest =>
    if c = sep then [] :: splitChar sep rest
    else
      match splitChar sep rest with
      | [] => [[c]]
      | g :: gs => (c :: g) :: gs

/-- Digit accumulator for `natChars`, structurally recursive on a fuel
bound so that it evaluates inside the kernel. -/
def natCharsAux : Nat → Nat → List Char → List Char
  | 0, _, acc => acc
  | fuel + 1, n, acc =>
    if n < 10 then Nat.digitChar n :: acc
    else natCharsAux fuel (n / 10) (Nat.digitChar (n % 10) :: acc)

/-- Decimal digit characters of `n`, most significant first — JS `String(v)`
for a non-negative integer `v`. -/
def natChars (n : Nat) : List Char := natCharsAux (n + 1) n []

/-- Model of JS `.padStart(2, "0")`: prepend zeros up to length 2. -/
def pad2 (cs : List Char) : List Char :=
  if 2 ≤ cs.length then cs else List.replicate (2 - cs.length) '0' ++ cs

/-! ## Time Codec (source `secondsToHms` / `hmsToSeconds`) -/

/-- Source `secondsToHms`: hours, minutes and seconds each zero-padded to
width 2 and joined by `:`.  The argument is the non-negative integer number
of seconds the source feeds it. -/
def secondsToHms (sec : Nat) : String :=
  String.mk
    (pad2 (natChars (sec / 3600)) ++ ':' ::
      pad2 (natChars (sec % 3600 / 60)) ++ ':' :: pad2 (natChars (sec % 60)))

/-- Source `hmsToSeconds`.  When the string is empty or has no `:` the
source returns `0`.  Otherwise it computes
`parts[0]*3600 + parts[1]*60 + parts[2]` over the split-and-parsed
segments; with fewer than three segments `parts[2]` is `undefined` and the
sum is `NaN`, modelled as `none`. -/
def hmsToSeconds (hms : String) : Option Int :=
  if hms.toList = [] ∨ ¬ hms.toList.contains ':' then some 0
  else
    let parts := (splitChar ':' hms.toList).map parseIntOr0
    match parts[0]?, parts[1]?, parts[2]? with
    | some a, some b, some c => some (a * 3600 + b * 60 + c)
    | _, _, _ => none

/-! ## Time-Field Editor (source `parseTimeString` / `handleTimeInput`) -/

/-- Model of the source's `parts[i] || "00"`: a missing or empty segment
falls back to `"00"`. -/
def segOr00 (o : Option (List Char)) : List Char :=
  match o with
  | some p => if p = [] then ['0', '0'] else p
  | none => ['0', '0']

/-- Source `parseTimeString`: split on `:`, default each of the first three
segments to `"00"`, and pad each to width 2. -/
def parseTimeString (value : String) : List Char × List Char × List Char :=
  let parts := splitChar ':' value.toList
  (pad2 (segOr00 parts[0]?), pad2 (segOr00 parts[1]?), pad2 (segOr00 parts[2]?))

/-- Model of JS `s.charAt(1)`: a one-character string, or the empty string
when the index is out of range. -/
def charAt1 (cs : List Char) : List Char :=
  match cs[1]? with
  | some c => [c]
  | none => []

/-- Test of the source's regex `^\d$`: exactly one decimal digit character. -/
def isSingleDigit (key : String) : Bool :=
  match key.toList with
  | [c] => c.isDigit
  | _ => false

/-- Source `handleTimeInput`: a non-digit key returns the buffer unchanged;
a digit key targets hours when `cursorPos <= 2`, minutes when
`cursorPos <= 5`, else seconds, and replaces the targeted sub-field by its
former low digit followed by the new digit. -/
def handleTimeInput (currentValue key : String) (cursorPos : Nat) : String :=
  if ¬ isSingleDigit key then currentValue
  else
    let hms := parseTimeString currentValue
    let hh := hms.1
    let mm := hms.2.1
    let ss := hms.2.2
    if cursorPos ≤ 2 then
      String.mk (pad2 (charAt1 hh ++ key.toList) ++ ':' :: mm ++ ':' :: ss)
    else if cursorPos ≤ 5 then
      String.mk (hh ++ ':' :: pad2 (charAt1 mm ++ key.toList) ++ ':' :: ss)
    else
      String.mk (hh ++ ':' :: mm ++ ':' :: pad2 (charAt1 ss ++ key.toList))

/-! ## Data model (source type declarations) -/

/-- Kind tag of the source's `ParsedInput` union. -/
inductive RefType where
  | video
  | clip
deriving DecidableEq

/-- A non-null `ParsedInput` value: a typed media reference. -/
structure Ref where
  type : RefType
  id : String
deriving DecidableEq

/-- Source `VideoQuality`. -/
structure VideoQuality where
  id : String
  width : Nat
  height : Nat
  bandwidth : Nat
  label : String
deriving DecidableEq

/-- Source `VodInfo` (response of `fetch_video_info`). -/
structure VodInfo where
  title : String
  channel : String
  duration : Nat
  thumbnail : String
  qualities : List VideoQuality
deriving DecidableEq

/-- Source `PreviewInfo` (duration absent for clips). -/
structure PreviewInfo where
  title : String
  channel : String
  thumbnail : String
  duration : Option Nat
deriving DecidableEq

/-- Source `DownloadProgress`. -/
structure DownloadProgress where
  stage : String
  current : Nat
  total : Nat
  message : String
deriving DecidableEq

/-- Kind of a toast notification. -/
inductive ToastType where
  | success
  | error
deriving DecidableEq

/-- Source `ToastData`. -/
structure ToastData where
  type : ToastType
  message : String
  detail : Option String
deriving DecidableEq

/-- Backend download commands dispatched by `handleDownload` (`invoke`
targets `download_clip_cmd` and `download_vod`). -/
inductive BackendCall where
  | downloadClip (clipUid : String) (outputDir : String)
  | downloadVod (videoId : String) (startTime : String) (endTime : String)
      (outputDir : String) (qualityId : Option String)
deriving DecidableEq

/-- Controller state: the `useState` cells of `App` that the claims touch,
plus two bookkeeping fields for the asynchronous machinery — `timer` is the
pending debounce timeout together with the reference it captured, and
`inflight` records metadata fetches that have started and not yet
settled. -/
structure AppState where
  parsed : Option Ref
  timer : Option Ref
  fetchingInfo : Bool
  inflight : List Ref
  preview : Option PreviewInfo
  startTime : String
  endTime : String
  outputDir : String
  isDownloading : Bool
  installingFfmpeg : Bool
  availableQualities : List VideoQuality
  selectedQuality : String
  ffmpegReady : Option Bool
  toast : Option ToastData
  progress : Option DownloadProgress
deriving DecidableEq

/-- Initial values of the `useState` cells. -/
def initState : AppState where
  parsed := none
  timer := none
  fetchingInfo := false
  inflight := []
  preview := none
  startTime := "00:00:00"
  endTime := ""
  outputDir := ""
  isDownloading := false
  installingFfmpeg := false
  availableQualities := []
  selectedQuality := "auto"
  ffmpegReady := none
  toast := none
  progress := none

/-! ## Metadata Resolver (source lines 229-286) -/

/-- Re-run of the resolver effect when its dependencies
(`parsed?.id`, `parsed?.type`) change: the cleanup clears any pending
debounce timer, then the body clears the preview when the new reference is
null, and otherwise arms a fresh 500 ms timer capturing the new reference.
When the dependencies are unchanged the effect does not re-run.  An
in-flight fetch is not cancelled — only the pending timer is. -/
def changeParsed (s : AppState) (r : Option Ref) : AppState :=
  if r = s.parsed then s
  else
    match r with
    | none => { s with parsed := none, timer := none, preview := none }
    | some _ => { s with parsed := r, timer := r }

/-- The debounce timer fires: `setFetchingInfo(true)` runs and the
`invoke` call for the captured reference starts. -/
def timerFire (s : AppState) : AppState :=
  match s.timer with
  | none => s
  | some r => { s with timer := none, fetchingInfo := true, inflight := r :: s.inflight }

/-- JS sort with comparator `(a, b) => b.bandwidth - a.bandwidth`: a stable
sort ordering larger bandwidths first. -/
def sortQualitiesDesc (qs : List VideoQuality) : List VideoQuality :=
  qs.mergeSort (fun a b => b.bandwidth ≤ a.bandwidth)

/-- Success handler of `fetch_video_info` (source lines 239-261): store the
preview, auto-fill the end time when the duration is positive, store the
sorted quality set and reset the selection to `"auto"` — the reset happens
only inside the non-empty-qualities branch. -/
def applyVideoSuccess (s : AppState) (info : VodInfo) : AppState :=
  let s1 := { s with
    preview := some
      { title := info.title, channel := info.channel,
        thumbnail := info.thumbnail, duration := some info.duration } }
  let s2 :=
    if 0 < info.duration then { s1 with endTime := secondsToHms info.duration } else s1
  if 0 < info.qualities.length then
    { s2 with availableQualities := sortQualitiesDesc info.qualities,
              selectedQuality := "auto" }
  else
    { s2 with availableQualities := [] }

/-- Resolution of an in-flight `fetch_video_info` promise for the reference
`r` it was started with: the source's `then` handler applies the result
without comparing `r` against the current reference, and the `finally`
clears the fetching flag. -/
def resolveVideo (s : AppState) (r : Ref) (info : VodInfo) : AppState :=
  { applyVideoSuccess s info with
      fetchingInfo := false, inflight := s.inflight.erase r }

/-! ## Range Validator (source lines 291-323)

The validator applies only in video mode with a known duration; its three
state atoms are the start text, the end text and the duration, collected in
`RangeState`.  JS comparisons against `NaN` are false, hence the `Option`
comparators. -/

/-- JS `a > b` where `a` may be `NaN`. -/
def jsGtN (a : Option Int) (b : Int) : Bool :=
  match a with
  | some x => b < x
  | none => false

/-- JS `a >= b` where `a` may be `NaN`. -/
def jsGeN (a : Option Int) (b : Int) : Bool :=
  match a with
  | some x => b ≤ x
  | none => false

/-- JS `a >= b` where either side may be `NaN`. -/
def jsGeOO (a b : Option Int) : Bool :=
  match a, b with
  | some x, some y => y ≤ x
  | _, _ => false

/-- The start text, end text and duration read by the validator (video
mode, duration 0 standing for the falsy `preview?.duration`). -/
structure RangeState where
  startTime : String
  endTime : String
  duration : Nat
deriving DecidableEq

/-- Corrective effect of source lines 291-298: when the duration is known,
the end text is non-empty and its seconds exceed the duration, the end text
is reset to the encoded duration. -/
def clampEnd (s : RangeState) : RangeState :=
  if s.duration ≠ 0 ∧ s.endTime ≠ "" ∧ jsGtN (hmsToSeconds s.endTime) s.duration then
    { s with endTime := secondsToHms s.duration }
  else s

/-- Corrective effect of source lines 301-309: when the duration is known,
the start text is non-empty and its seconds reach the duration, the start
text is reset to the encoding of `max(0, duration - 60)` (which is the
truncated subtraction `duration - 60` on `Nat`). -/
def clampStart (s : RangeState) : RangeState :=
  if s.duration ≠ 0 ∧ s.startTime ≠ "" ∧ jsGeN (hmsToSeconds s.startTime) s.duration then
    { s with startTime := secondsToHms (s.duration - 60) }
  else s

/-- One round of the two corrective effects, in source order. -/
def reactRange (s : RangeState) : RangeState := clampStart (clampEnd s)

/-- Source `timeRangeError` (lines 312-323), in video mode: `null` when the
duration is unknown; otherwise an error message exactly when
`startSec >= endSec`, the end seconds defaulting to the duration when the
end text is empty. -/
def timeRangeError (s : RangeState) : Option String :=
  if s.duration = 0 then none
  else
    let startSec := hmsToSeconds s.startTime
    let endSec := if s.endTime ≠ "" then hmsToSeconds s.endTime else some (s.duration : Int)
    if jsGeOO startSec endSec then some "시작 시간이 종료 시간보다 크거나 같습니다"
    else none

/-- An update to one of the three state atoms the validator reads. -/
inductive RangeUpdate where
  | setStart (v : String)
  | setEnd (v : String)
  | setDuration (d : Nat)
deriving DecidableEq

/-- Application of one update followed by the corrective reactions it
triggers. -/
def applyRangeUpdate (s : RangeState) (u : RangeUpdate) : RangeState :=
  reactRange
    (match u with
     | RangeUpdate.setStart v => { s with startTime := v }
     | RangeUpdate.setEnd v => { s with endTime := v }
     | RangeUpdate.setDuration d => { s with duration := d })

/-- Initial video-mode range state with duration `d`, reacted once. -/
def initRange (d : Nat) : RangeState :=
  reactRange { startTime := "00:00:00", endTime := "", duration := d }

/-- A finite sequence of updates applied from the initial state. -/
def runRange (d : Nat) (us : List RangeUpdate) : RangeState :=
  us.foldl applyRangeUpdate (initRange d)

/-! ## Quality Selector size estimate (source lines 760-801) -/

/-- JS `Math.round`: half-integers round toward positive infinity. -/
def jsRound (q : ℚ) : Int := ⌊q + 1 / 2⌋

/-- Source `estimatedSizeMB`: `null` when `downloadDuration` is falsy
(zero), else `Math.round(bandwidth * downloadDuration / 8 / 1_000_000)`. -/
def estimatedSizeMB (bandwidth downloadDuration : Nat) : Option Int :=
  if downloadDuration = 0 then none
  else some (jsRound ((bandwidth : ℚ) * (downloadDuration : ℚ) / 8 / 1000000))

/-- JS `(num / denom).toFixed(1)` for integer inputs with `denom` positive,
modelling the JS number as the exact rational: half-up rounding to
tenths. -/
def toFixed1 (num denom : Nat) : String :=
  let tenths := (20 * num + denom) / (2 * denom)
  String.mk (natChars (tenths / 10) ++ '.' :: natChars (tenths % 10))

/-- Source `formatSize`: `null` stays `null`, at least 1000 MB renders as
gigabytes with one decimal, below that as whole megabytes.  The estimate is
non-negative in every reachable use, so the MB branch renders `m.toNat`. -/
def formatSize (mb : Option Int) : Option String :=
  match mb with
  | none => none
  | some m =>
    if 1000 ≤ m then some ("~" ++ toFixed1 m.toNat 1000 ++ "GB")
    else some ("~" ++ String.mk (natChars m.toNat) ++ "MB")

/-- Label shown on a quality button (source lines 826-827):
`formatSize(estimatedSizeMB) || bitrate`, the bitrate being
`(bandwidth / 1_000_000).toFixed(1)` followed by `Mbps`. -/
def qualitySizeLabel (bandwidth downloadDuration : Nat) : String :=
  match formatSize (estimatedSizeMB bandwidth downloadDuration) with
  | some t => t
  | none => toFixed1 bandwidth 1000000 ++ "Mbps"

/-! ## Download Session Manager (source lines 346-382 and 897-900) -/

/-- Source derived value `isClip`. -/
def isClip (s : AppState) : Bool :=
  match s.parsed with
  | some r => r.type = RefType.clip
  | none => false

/-- The duration the validator reads through `preview?.duration`, with `0`
standing for the falsy undefined/zero cases. -/
def durationOf (s : AppState) : Nat :=
  match s.preview with
  | some p => p.duration.getD 0
  | none => 0

/-- Source `timeRangeError` at the controller level: `null` in clip mode or
without a known duration, else the video-mode check. -/
def timeRangeErrorApp (s : AppState) : Option String :=
  if isClip s then none
  else timeRangeError { startTime := s.startTime, endTime := s.endTime, duration := durationOf s }

/-- Source derived value `isBusy`. -/
def isBusy (s : AppState) : Bool := s.isDownloading || s.installingFfmpeg

/-- Source derived value `needsFfmpeg` (`ffmpegReady === false`). -/
def needsFfmpeg (s : AppState) : Bool := !isClip s && s.ffmpegReady = some false

/-- Disabled condition of the download button (source line 899). -/
def downloadDisabled (s : AppState) : Bool :=
  isBusy s || (needsFfmpeg s && !isClip s) || (timeRangeErrorApp s).isSome

/-- Source `handleDownload`, run to completion with the backend outcome
supplied as a parameter: precondition toasts for a missing reference or
destination dispatch nothing; otherwise the busy flag is set, prior
toast/progress cleared, exactly one backend call dispatched by reference
kind (start defaulting to `"00:00:00"` when blank, quality `null` when
`"auto"`), and the terminal toast set with the busy flag cleared. -/
def handleDownload (s : AppState) (result : Except String String) :
    AppState × Option BackendCall :=
  match s.parsed with
  | none =>
    ({ s with toast := some ⟨ToastType.error, "Video ID 또는 Clip URL을 입력해주세요.", none⟩ },
      none)
  | some p =>
    if s.outputDir = "" then
      ({ s with toast := some ⟨ToastType.error, "저장 경로를 선택해주세요.", none⟩ }, none)
    else
      let call :=
        match p.type with
        | RefType.clip => BackendCall.downloadClip p.id s.outputDir
        | RefType.video =>
          BackendCall.downloadVod p.id
            (if s.startTime = "" then "00:00:00" else s.startTime)
            s.endTime s.outputDir
            (if s.selectedQuality = "auto" then none else some s.selectedQuality)
      let s1 := { s with isDownloading := true, toast := none, progress := none }
      match result with
      | Except.ok path =>
        ({ s1 with
            isDownloading := false
            toast := some ⟨ToastType.success, "다운로드 완료!", some path⟩ }, some call)
      | Except.error e =>
        ({ s1 with
            isDownloading := false
            toast := some ⟨ToastType.error, "다운로드 실패", some e⟩ }, some call)

/-- A click on the download button: React suppresses `onClick` of a
disabled button, so `handleDownload` runs only when the disabled condition
of source line 899 is false. -/
def clickDownload (s : AppState) (result : Except String String) :
    AppState × Option BackendCall :=
  if downloadDisabled s then (s, none) else handleDownload s result

/-! ## Definitions used to state the claims -/

/-- Claim C4's reading of `textToSeconds`, for comparison with the source's
`hmsToSeconds`: each of the first three `:`-separated segments parsed with
default 0, and a missing trailing segment also treated as 0. -/
def claimedTextToSeconds (t : String) : Int :=
  let parts := (splitChar ':' t.toList).map parseIntOr0
  parts.getD 0 0 * 3600 + parts.getD 1 0 * 60 + parts.getD 2 0

/-- Modelled from the spec's formula: estimated size in megabytes is
`round(bandwidthBitsPerSec * rangeDurationSeconds / 8 / 1_000_000)`,
written as a half-up rounding in natural-number arithmetic. -/
def specSizeMB (b d : Nat) : Nat := (2 * (b * d) + 8000000) / 16000000

/-- Claim C3's `effectiveEnd`: the end time if set, else the duration — the
`endSec` the source computes in `timeRangeError`. -/
def effectiveEnd (s : RangeState) : Option Int :=
  if s.endTime ≠ "" then hmsToSeconds s.endTime else some (s.duration : Int)

/-- Claim C3's range invariant `0 <= start < effectiveEnd <= duration`,
both bounds read as actual numbers (`NaN` satisfies nothing). -/
def rangeInvariant (s : RangeState) : Prop :=
  ∃ st ee : Int, hmsToSeconds s.startTime = some st ∧ effectiveEnd s = some ee ∧
    0 ≤ st ∧ st < ee ∧ ee ≤ (s.duration : Int)

/-- A time text that parses to an actual non-negative number of seconds
(the empty text parses to 0). -/
def goodTimeText (v : String) : Prop :=
  ∃ n : Int, hmsToSeconds v = some n ∧ 0 ≤ n

/-- Updates within claim C3's scope: time texts parsing to non-negative
numbers, and positive (known) durations. -/
def goodUpdate : RangeUpdate → Prop
  | RangeUpdate.setStart v => goodTimeText v
  | RangeUpdate.setEnd v => goodTimeText v
  | RangeUpdate.setDuration d => 0 < d

/-- Induction invariant for claim C3: positive duration, a start text
parsing to a non-negative number, and an end text that is empty or parses
to a number in `[0, duration]`. -/
def rangeStateOk (s : RangeState) : Prop :=
  0 < s.duration ∧
    (∃ st : Int, hmsToSeconds s.startTime = some st ∧ 0 ≤ st) ∧
    (s.endTime = "" ∨
      ∃ e : Int, hmsToSeconds s.endTime = some e ∧ 0 ≤ e ∧ e ≤ (s.duration : Int))

/-- Claim C1's trace, reference R1: the first parsed reference. -/
def c1Ref1 : Ref := ⟨RefType.video, "111"⟩

/-- Claim C1's trace, reference R2: the superseding parsed reference. -/
def c1Ref2 : Ref := ⟨RefType.video, "222"⟩

/-- Claim C1's trace: the metadata R1's fetch eventually resolves with. -/
def c1Info : VodInfo :=
  { title := "t1", channel := "c1", duration := 3661, thumbnail := "th1",
    qualities := [] }

/-- Claim C1's trace: reference set to R1, the debounce timer fires (R1's
fetch starts), the reference changes to R2 while that fetch is in flight,
and then R1's fetch resolves. -/
def c1Final : AppState :=
  resolveVideo
    (changeParsed (timerFire (changeParsed initState (some c1Ref1))) (some c1Ref2))
    c1Ref1 c1Info

/-! ## Lemmas: decimal printing and parsing round-trip -/

lemma decimalValue_append_digit (l : List Char) (c : Char) :
    decimalValue (l ++ [c]) = 10 * decimalValue l + digitVal c := by
  simp [decimalValue, List.foldl_append]

lemma digitChar_isDigit {n : Nat} (h : n < 10) : (Nat.digitChar n).isDigit = true := by
  interval_cases n <;> decide

lemma digitVal_digitChar {n : Nat} (h : n < 10) : digitVal (Nat.digitChar n) = n := by
  interval_cases n <;> decide

lemma natCharsAux_spec (fuel : Nat) : ∀ n acc, n < fuel →
    ∃ ds, natCharsAux fuel n acc = ds ++ acc ∧ ds ≠ [] ∧
      (∀ c ∈ ds, c.isDigit = true) ∧ decimalValue ds = n := by
  induction fuel with
  | zero => omega
  | succ fuel ih =>
    intro n acc hn
    rw [natCharsAux]
    split
    · next h =>
      refine ⟨[Nat.digitChar n], rfl, by simp, ?_, ?_⟩
      · intro c hc
        simp only [List.mem_singleton] at hc
        subst hc
        exact digitChar_isDigit h
      · simp [decimalValue, digitVal_digitChar h]
    · next h =>
      have h10 : n / 10 < fuel := by omega
      obtain ⟨ds, heq, hne, hdig, hval⟩ := ih (n / 10) (Nat.digitChar (n % 10) :: acc) h10
      refine ⟨ds ++ [Nat.digitChar (n % 10)], by rw [heq]; simp, by simp [hne], ?_, ?_⟩
      · intro c hc
        rcases List.mem_append.mp hc with hc | hc
        · exact hdig c hc
        · simp only [List.mem_singleton] at hc
          subst hc
          exact digitChar_isDigit (Nat.mod_lt _ (by omega))
      · rw [decimalValue_append_digit, hval, digitVal_digitChar (Nat.mod_lt _ (by omega))]
        omega

lemma natChars_spec (n : Nat) :
    natChars n ≠ [] ∧ (∀ c ∈ natChars n, c.isDigit = true) ∧
      decimalValue (natChars n) = n := by
  obtain ⟨ds, heq, hne, hdig, hval⟩ := natCharsAux_spec (n + 1) n [] (by omega)
  rw [natChars, heq, List.append_nil]
  exact ⟨hne, hdig, hval⟩

lemma natChars_ne_nil (n : Nat) : natChars n ≠ [] := (natChars_spec n).1

lemma natChars_digits {n : Nat} {c : Char} (hc : c ∈ natChars n) : c.isDigit = true :=
  (natChars_spec n).2.1 c hc

lemma decimalValue_natChars (n : Nat) : decimalValue (natChars n) = n :=
  (natChars_spec n).2.2

lemma pad2_eq (cs : List Char) :
    pad2 cs = List.replicate (2 - cs.length) '0' ++ cs := by
  unfold pad2
  split
  · next h => simp [Nat.sub_eq_zero_of_le h]
  · rfl

lemma mem_pad2 {cs : List Char} {c : Char} (h : c ∈ pad2 cs) : c = '0' ∨ c ∈ cs := by
  rw [pad2_eq] at h
  rcases List.mem_append.mp h with h | h
  · exact Or.inl (List.eq_of_mem_replicate h)
  · exact Or.inr h

lemma pad2_ne_nil {cs : List Char} (h : cs ≠ []) : pad2 cs ≠ [] := by
  rw [pad2_eq]
  simp [h]

lemma pad2_digits {cs : List Char} (h : ∀ c ∈ cs, c.isDigit = true) :
    ∀ c ∈ pad2 cs, c.isDigit = true := by
  intro c hc
  rcases mem_pad2 hc with rfl | hc
  · decide
  · exact h c hc

lemma decimalValue_replicate_zero (k : Nat) (cs : List Char) :
    decimalValue (List.replicate k '0' ++ cs) = decimalValue cs := by
  induction k with
  | zero => simp
  | succ k ih =>
    simpa [decimalValue, List.replicate_succ, digitVal] using ih

lemma decimalValue_pad2 (cs : List Char) : decimalValue (pad2 cs) = decimalValue cs := by
  rw [pad2_eq, decimalValue_replicate_zero]

lemma isDigit_not_ws {c : Char} (h : c.isDigit = true) : jsWhitespaceChar c = false := by
  have hn : ¬ (c = ' ' ∨ c = '\t' ∨ c = '\n' ∨ c = '\r') := by
    rintro (rfl | rfl | rfl | rfl) <;> exact absurd h (by decide)
  simpa [jsWhitespaceChar] using hn

lemma isDigit_ne_minus {c : Char} (h : c.isDigit = true) : c ≠ '-' := by
  rintro rfl
  exact absurd h (by decide)

lemma isDigit_ne_plus {c : Char} (h : c.isDigit = true) : c ≠ '+' := by
  rintro rfl
  exact absurd h (by decide)

lemma isDigit_ne_colon {c : Char} (h : c.isDigit = true) : c ≠ ':' := by
  rintro rfl
  exact absurd h (by decide)

/-- JS `parseInt` on a non-empty all-digit string reads the whole string. -/
lemma jsParseInt_digits {ds : List Char} (hne : ds ≠ [])
    (hd : ∀ c ∈ ds, c.isDigit = true) :
    jsParseInt ds = some (decimalValue ds) := by
  obtain ⟨d, rest, rfl⟩ := List.exists_cons_of_ne_nil hne
  have hdd : d.isDigit = true := hd d (by simp)
  have hdrop : List.dropWhile jsWhitespaceChar (d :: rest) = d :: rest := by
    rw [List.dropWhile_cons, isDigit_not_ws hdd]
    simp
  have htake : List.takeWhile Char.isDigit (d :: rest) = d :: rest :=
    List.takeWhile_eq_self_iff.mpr hd
  unfold jsParseInt
  rw [hdrop]
  simp [isDigit_ne_minus hdd, isDigit_ne_plus hdd, jsLeadingDigits, htake]

lemma parseIntOr0_pad2_natChars (k : Nat) :
    parseIntOr0 (pad2 (natChars k)) = (k : Int) := by
  have h := jsParseInt_digits (pad2_ne_nil (natChars_ne_nil k))
    (pad2_digits (fun c hc => natChars_digits hc))
  rw [parseIntOr0, h, decimalValue_pad2, decimalValue_natChars]
  rfl

/-! ## Lemmas: splitting on a separator -/

lemma splitChar_ne_nil (sep : Char) (cs : List Char) : splitChar sep cs ≠ [] := by
  cases cs with
  | nil => simp [splitChar]
  | cons c rest =>
    rw [splitChar]
    split
    · simp
    · split <;> simp

lemma splitChar_no_sep {sep : Char} {cs : List Char} (h : sep ∉ cs) :
    splitChar sep cs = [cs] := by
  induction cs with
  | nil => rfl
  | cons c rest ih =>
    have hcne : c ≠ sep := fun hc => h (hc ▸ List.mem_cons_self c rest)
    have hrest : sep ∉ rest := fun hr => h (List.mem_cons_of_mem c hr)
    rw [splitChar, if_neg hcne, ih hrest]

lemma splitChar_append {sep : Char} {pre : List Char} (rest : List Char)
    (h : sep ∉ pre) :
    splitChar sep (pre ++ sep :: rest) = pre :: splitChar sep rest := by
  induction pre with
  | nil => simp [splitChar]
  | cons c pre ih =>
    have hcne : c ≠ sep := fun hc => h (hc ▸ List.mem_cons_self c pre)
    have hpre : sep ∉ pre := fun hr => h (List.mem_cons_of_mem c hr)
    rw [List.cons_append, splitChar, if_neg hcne, ih hpre]

lemma no_colon_pad2_natChars (k : Nat) : ':' ∉ pad2 (natChars k) := by
  intro h
  exact isDigit_ne_colon (pad2_digits (fun c hc => natChars_digits hc) _ h) rfl

/-! ## Lemmas: the time-codec round-trip -/

lemma hmsToSeconds_secondsToHms (n : Nat) :
    hmsToSeconds (secondsToHms n) = some (n : Int) := by
  have hlist : (secondsToHms n).toList
      = pad2 (natChars (n / 3600)) ++ ':' :: pad2 (natChars (n % 3600 / 60))
        ++ ':' :: pad2 (natChars (n % 60)) := rfl
  rw [List.append_assoc, List.cons_append] at hlist
  have hsplit : splitChar ':'
      (pad2 (natChars (n / 3600)) ++ ':' ::
        (pad2 (natChars (n % 3600 / 60)) ++ ':' :: pad2 (natChars (n % 60))))
      = [pad2 (natChars (n / 3600)), pad2 (natChars (n % 3600 / 60)),
          pad2 (natChars (n % 60))] := by
    rw [splitChar_append _ (no_colon_pad2_natChars _),
      splitChar_append _ (no_colon_pad2_natChars _),
      splitChar_no_sep (no_colon_pad2_natChars _)]
  have hdata : (secondsToHms n).data
      = pad2 (natChars (n / 3600)) ++ ':' ::
        (pad2 (natChars (n % 3600 / 60)) ++ ':' :: pad2 (natChars (n % 60))) := hlist
  rw [hmsToSeconds, if_neg (by simp [hdata])]
  simp only [hlist, hsplit, List.map_cons, List.map_nil,
    parseIntOr0_pad2_natChars, List.getElem?_cons_zero, List.getElem?_cons_succ]
  norm_num
  omega

/-! ## Claim C6 -/

/-- C6: for every non-negative integer `s`,
`secondsToText(textToSeconds(secondsToText(s)))` equals `secondsToText(s)`
(with `secondsToText = secondsToHms` and `textToSeconds = hmsToSeconds`):
the inner parse yields a number (namely `s` itself), and re-encoding it
reproduces the same text. -/
theorem C6_codec_roundtrip (s : Nat) :
    (hmsToSeconds (secondsToHms s)).map (fun t => secondsToHms t.toNat)
      = some (secondsToHms s) := by
  rw [hmsToSeconds_secondsToHms]
  simp

/-! ## Claim C4 -/

lemma splitChar_length_ge_two {sep : Char} {cs : List Char} (h : sep ∈ cs) :
    2 ≤ (splitChar sep cs).length := by
  induction cs with
  | nil => simp at h
  | cons c rest ih =>
    rw [splitChar]
    by_cases hc : c = sep
    · rw [if_pos hc]
      have := splitChar_ne_nil sep rest
      have : 1 ≤ (splitChar sep rest).length := by
        cases hsp : splitChar sep rest with
        | nil => exact absurd hsp (splitChar_ne_nil sep rest)
        | cons a l => simp
      simpa using this
    · rw [if_neg hc]
      have hmem : sep ∈ rest := by
        rcases List.mem_cons.mp h with h | h
        · exact absurd h.symm hc
        · exact h
      cases hsp : splitChar sep rest with
      | nil => exact absurd hsp (splitChar_ne_nil sep rest)
      | cons a l =>
        have := ih hmem
        rw [hsp] at this
        simpa using this

/-- C4 counterexample: on the two-segment input `"12:34"` the claim
predicts `12*3600 + 34*60 = 45240` seconds (missing trailing segment
treated as 0), but the source computes
`parts[0]*3600 + parts[1]*60 + parts[2]` with `parts[2]` `undefined`, so
the result is `NaN`, not a number at all. -/
theorem C4_counterexample :
    hmsToSeconds "12:34" = none ∧ claimedTextToSeconds "12:34" = 45240 := by
  constructor
  · decide
  · decide

/-- C4 amended: `hmsToSeconds` returns 0 with no `:` present, and computes
hours*3600 + minutes*60 + seconds with each segment parsed as an integer
defaulting to 0 whenever the split yields at least three segments; but a
two-segment input (exactly one `:`) yields `NaN` — the missing trailing
seconds segment is NOT treated as 0. -/
theorem C4_textToSeconds (t : String) :
    hmsToSeconds t
      = if t.toList.contains ':' = false then some 0
        else if (splitChar ':' t.toList).length = 2 then none
        else some (claimedTextToSeconds t) := by
  by_cases hc : t.toList.contains ':' = true
  · have hmem : ':' ∈ t.toList := by simpa using hc
    have hne : t.toList ≠ [] := by
      intro h
      rw [h] at hmem
      simp at hmem
    have hlen := splitChar_length_ge_two hmem
    rw [hmsToSeconds, if_neg (by push_neg; exact ⟨hne, hc⟩),
      if_neg (by rw [hc]; simp)]
    rcases hsp : splitChar ':' t.toList with _ | ⟨a, _ | ⟨b, _ | ⟨c, tl⟩⟩⟩
    · exact absurd hsp (splitChar_ne_nil _ _)
    · rw [hsp] at hlen
      simp at hlen
    · simp [hsp]
    · have hsp2 : splitChar ':' t.data = a :: b :: c :: tl := hsp
      simp [hsp, hsp2, claimedTextToSeconds]
  · have hc' : t.toList.contains ':' = false := by
      cases h : t.toList.contains ':'
      · rfl
      · exact absurd h hc
    rw [hmsToSeconds, if_pos (Or.inr (by rw [hc']; simp)), if_pos hc']

/-- C4 witness facts obtained from the amended theorem at concrete inputs:
an input with no colon, a three-segment input, and a two-segment input. -/
theorem C4_textToSeconds_witness :
    hmsToSeconds "ab" = some 0 ∧ hmsToSeconds "1:2:3" = some 3723 ∧
      hmsToSeconds "12:34" = none := by
  refine ⟨?_, ?_, ?_⟩
  · rw [C4_textToSeconds]
    decide
  · rw [C4_textToSeconds]
    decide
  · rw [C4_textToSeconds]
    decide

/-! ## Claim C10 -/

/-- C10: for every buffer, caret position and key that is not a single
decimal digit character, `handleTimeInput` returns the buffer unchanged. -/
theorem C10_nondigit_key_identity (v key : String) (p : Nat)
    (h : isSingleDigit key = false) : handleTimeInput v key p = v := by
  rw [handleTimeInput, if_pos (by simp [h])]

/-- C10 witness: the non-digit key `"x"` leaves the buffer unchanged. -/
theorem C10_nondigit_key_identity_witness :
    handleTimeInput "00:00:00" "x" 3 = "00:00:00" :=
  C10_nondigit_key_identity "00:00:00" "x" 3 (by decide)

/-! ## Claim C5 -/

/-- C5 counterexample: with caret position 2 (the first colon) on buffer
`"00:00:00"`, the claim says the minutes sub-field is targeted (the colon
at index 2 belongs to the following field), so digit `5` would give
`"00:05:00"`; the source's `cursorPos <= 2` branch targets the hours
sub-field instead, giving `"05:00:00"`. -/
theorem C5_counterexample :
    handleTimeInput "00:00:00" "5" 2 = "05:00:00" ∧
      ("05:00:00" : String) ≠ "00:05:00" := by
  constructor
  · decide
  · decide

lemma pad2_two (x y : Char) : pad2 [x, y] = [x, y] := by
  rw [pad2_eq]
  rfl

/-- C5 amended: on a well-formed `HH:MM:SS` buffer, a digit key targets the
hours sub-field exactly when the caret position is at most 2, the minutes
sub-field exactly when it is in `[3,5]`, and the seconds sub-field
otherwise — the colon at index 2 (resp. 5) belongs to the PRECEDING field —
and it replaces the targeted sub-field with its former low digit followed
by the new digit, leaving the other two sub-fields unchanged. -/
theorem C5_digit_key_subfields (a b c d e f k : Char) (p : Nat)
    (ha : a ≠ ':') (hb : b ≠ ':') (hc : c ≠ ':') (hd : d ≠ ':')
    (he : e ≠ ':') (hf : f ≠ ':') (hk : k.isDigit = true) :
    handleTimeInput (String.mk [a, b, ':', c, d, ':', e, f]) (String.mk [k]) p
      = if p ≤ 2 then String.mk [b, k, ':', c, d, ':', e, f]
        else if p ≤ 5 then String.mk [a, b, ':', d, k, ':', e, f]
        else String.mk [a, b, ':', c, d, ':', f, k] := by
  have hsplit : splitChar ':' [a, b, ':', c, d, ':', e, f] = [[a, b], [c, d], [e, f]] := by
    have hform : ([a, b] : List Char) ++ ':' :: ([c, d] ++ ':' :: [e, f])
        = [a, b, ':', c, d, ':', e, f] := by simp
    rw [← hform, splitChar_append _ (by simp [Ne.symm ha, Ne.symm hb]),
      splitChar_append _ (by simp [Ne.symm hc, Ne.symm hd]),
      splitChar_no_sep (by simp [Ne.symm he, Ne.symm hf])]
  have hsingle : isSingleDigit (String.mk [k]) = true := by
    simp [isSingleDigit, hk]
  have hparse : parseTimeString (String.mk [a, b, ':', c, d, ':', e, f])
      = ([a, b], [c, d], [e, f]) := by
    rw [parseTimeString]
    have : (String.mk [a, b, ':', c, d, ':', e, f]).toList
        = [a, b, ':', c, d, ':', e, f] := rfl
    rw [this, hsplit]
    simp [segOr00, pad2_two]
  rw [handleTimeInput, if_neg (by simp [hsingle]), hparse]
  have hk1 : (String.mk [k]).toList = [k] := rfl
  by_cases h2 : p ≤ 2
  · rw [if_pos h2, if_pos h2]
    simp [charAt1, hk1, pad2_two]
  · rw [if_neg h2, if_neg h2]
    by_cases h5 : p ≤ 5
    · rw [if_pos h5, if_pos h5]
      simp [charAt1, hk1, pad2_two]
    · rw [if_neg h5, if_neg h5]
      simp [charAt1, hk1, pad2_two]

/-- C5 witness: the spec's own scenario — typing digit 5 with the caret at
position 0 on buffer `"00:00:00"` yields `"05:00:00"`. -/
theorem C5_digit_key_subfields_witness :
    handleTimeInput "00:00:00" "5" 0 = "05:00:00" := by
  have h := C5_digit_key_subfields '0' '0' '0' '0' '0' '0' '5' 0
    (by decide) (by decide) (by decide) (by decide) (by decide) (by decide) (by decide)
  simpa using h

/-! ## Claim C8 -/

lemma jsRound_div8e6 (n : Nat) :
    jsRound ((n : ℚ) / 8 / 1000000) = ((2 * n + 8000000) / 16000000 : Nat) := by
  rw [jsRound]
  have h : (n : ℚ) / 8 / 1000000 + 1 / 2
      = ((2 * n + 8000000 : Nat) : ℚ) / ((16000000 : Nat) : ℚ) := by
    push_cast
    ring
  rw [h, Rat.floor_natCast_div_natCast]
  exact (Int.natCast_div _ _).symm

lemma estimatedSizeMB_eq_spec (b d : Nat) (hd : 0 < d) :
    estimatedSizeMB b d = some ((specSizeMB b d : Nat) : Int) := by
  rw [estimatedSizeMB, if_neg (by omega)]
  congr 1
  have h : (b : ℚ) * (d : ℚ) = ((b * d : Nat) : ℚ) := by push_cast; ring
  rw [h, jsRound_div8e6, specSizeMB]

/-- C8: for a concrete quality option with bandwidth `b` and a positive
range duration `d`, the size estimate is
`round(b * d / 8 / 1_000_000)` megabytes; rendering switches from whole
megabytes to gigabytes with one decimal at 1000 MB; with no range duration
the estimate is `null` and the raw bitrate label is shown; and the spec's
scenario values hold: bandwidth 8_000_000 over 100 s gives 100 MB and
bandwidth 3_000_000 gives 38 MB. -/
theorem C8_size_estimate (b d : Nat) (hd : 0 < d) :
    estimatedSizeMB b d = some ((specSizeMB b d : Nat) : Int) ∧
    estimatedSizeMB b 0 = none ∧
    qualitySizeLabel b 0 = toFixed1 b 1000000 ++ "Mbps" ∧
    estimatedSizeMB 8000000 100 = some 100 ∧
    estimatedSizeMB 3000000 100 = some 38 ∧
    formatSize (some 100) = some "~100MB" ∧
    formatSize (some 38) = some "~38MB" ∧
    formatSize (some 999) = some "~999MB" ∧
    formatSize (some 1000) = some "~1.0GB" ∧
    formatSize (some 1500) = some "~1.5GB" := by
  refine ⟨estimatedSizeMB_eq_spec b d hd, rfl, rfl, ?_, ?_, ?_, ?_, ?_, ?_, ?_⟩
  · rw [estimatedSizeMB_eq_spec 8000000 100 (by omega)]
    decide
  · rw [estimatedSizeMB_eq_spec 3000000 100 (by omega)]
    decide
  · decide
  · decide
  · decide
  · decide
  · decide

/-- C8 witness: the theorem applied at the spec's scenario bandwidth and a
100-second range. -/
theorem C8_size_estimate_witness :
    estimatedSizeMB 3000000 100 = some ((specSizeMB 3000000 100 : Nat) : Int) :=
  (C8_size_estimate 3000000 100 (by decide)).1

/-! ## Claim C2 -/

/-- C2: in every controller state whose busy flag is set (a download or a
dependency install in flight), triggering the download performs no backend
download call and changes no state — the button's disabled condition
includes `isBusy`, so the click is a no-op rather than a queued request. -/
theorem C2_single_flight (s : AppState) (r : Except String String)
    (h : isBusy s = true) : clickDownload s r = (s, none) := by
  rw [clickDownload, if_pos]
  rw [downloadDisabled, h]
  rfl

/-- C2 witness: a concrete busy state (download in flight) on which a
second trigger dispatches nothing and changes nothing. -/
theorem C2_single_flight_witness :
    clickDownload { initState with isDownloading := true } (Except.ok "p")
      = ({ initState with isDownloading := true }, none) :=
  C2_single_flight { initState with isDownloading := true } (Except.ok "p") (by decide)

/-! ## Claim C9 -/

/-- C9 counterexample: a successful video fetch whose quality list is empty
does not reset the quality selection — the source's
`setSelectedQuality("auto")` sits inside the non-empty-qualities branch, so
a previously selected concrete id survives. -/
theorem C9_counterexample :
    (applyVideoSuccess { initState with selectedQuality := "720p" }
        { title := "t", channel := "ch", duration := 3661, thumbnail := "th",
          qualities := [] }).selectedQuality = "720p" ∧
      ("720p" : String) ≠ "auto" := by
  constructor
  · decide
  · decide

/-- C9 amended: a successful video fetch stores title, channel, thumbnail
and duration; a positive duration sets the end-time text to its encoding
(and duration 3661 yields `"01:01:01"`); the stored quality set is a
permutation of the returned set sorted descending by bandwidth; and the
selection is reset to `"auto"` when the returned quality set is non-empty
(an empty set clears the stored qualities but leaves the selection
unchanged). -/
lemma applyVideoSuccess_preview (s : AppState) (info : VodInfo) :
    (applyVideoSuccess s info).preview
      = some { title := info.title, channel := info.channel,
               thumbnail := info.thumbnail, duration := some info.duration } := by
  simp only [applyVideoSuccess]
  split_ifs <;> rfl

lemma applyVideoSuccess_endTime (s : AppState) (info : VodInfo)
    (h : 0 < info.duration) :
    (applyVideoSuccess s info).endTime = secondsToHms info.duration := by
  simp only [applyVideoSuccess]
  split_ifs <;> rfl

lemma applyVideoSuccess_qualities (s : AppState) (info : VodInfo) :
    (applyVideoSuccess s info).availableQualities
      = if 0 < info.qualities.length then sortQualitiesDesc info.qualities
        else [] := by
  simp only [applyVideoSuccess]
  split_ifs <;> rfl

lemma applyVideoSuccess_selectedQuality (s : AppState) (info : VodInfo) :
    (applyVideoSuccess s info).selectedQuality
      = if 0 < info.qualities.length then "auto" else s.selectedQuality := by
  simp only [applyVideoSuccess]
  split_ifs <;> rfl

lemma sortQualitiesDesc_perm (qs : List VideoQuality) :
    (sortQualitiesDesc qs).Perm qs :=
  List.mergeSort_perm qs _

lemma sortQualitiesDesc_sorted (qs : List VideoQuality) :
    List.Pairwise (fun a b => b.bandwidth ≤ a.bandwidth) (sortQualitiesDesc qs) := by
  have h := @List.sorted_mergeSort VideoQuality
    (fun a b : VideoQuality => decide (b.bandwidth ≤ a.bandwidth))
    (fun a b c hab hbc => by
      simp only [decide_eq_true_eq] at *
      omega)
    (fun a b => by
      simp only [Bool.or_eq_true, decide_eq_true_eq]
      omega)
    qs
  exact h.imp (fun hab => of_decide_eq_true hab)

theorem C9_video_success (s : AppState) (info : VodInfo) :
    (applyVideoSuccess s info).preview
      = some { title := info.title, channel := info.channel,
               thumbnail := info.thumbnail, duration := some info.duration } ∧
    (0 < info.duration →
      (applyVideoSuccess s info).endTime = secondsToHms info.duration) ∧
    (applyVideoSuccess s info).availableQualities.Perm
      (if info.qualities.length = 0 then [] else info.qualities) ∧
    List.Pairwise (fun a b => b.bandwidth ≤ a.bandwidth)
      (applyVideoSuccess s info).availableQualities ∧
    (info.qualities ≠ [] → (applyVideoSuccess s info).selectedQuality = "auto") ∧
    (info.qualities = [] →
      (applyVideoSuccess s info).availableQualities = [] ∧
      (applyVideoSuccess s info).selectedQuality = s.selectedQuality) ∧
    secondsToHms 3661 = "01:01:01" := by
  by_cases hq : info.qualities = []
  · have hlen : ¬ 0 < info.qualities.length := by simp [hq]
    refine ⟨applyVideoSuccess_preview s info, applyVideoSuccess_endTime s info,
      ?_, ?_, ?_, ?_, by decide⟩
    · rw [applyVideoSuccess_qualities, if_neg hlen, hq]
      simp
    · rw [applyVideoSuccess_qualities, if_neg hlen]
      simp
    · intro h
      exact absurd hq h
    · intro _
      exact ⟨by rw [applyVideoSuccess_qualities, if_neg hlen],
        by rw [applyVideoSuccess_selectedQuality, if_neg hlen]⟩
  · have hlen : 0 < info.qualities.length := List.length_pos.mpr hq
    refine ⟨applyVideoSuccess_preview s info, applyVideoSuccess_endTime s info,
      ?_, ?_, ?_, ?_, by decide⟩
    · rw [applyVideoSuccess_qualities, if_pos hlen, if_neg (by omega)]
      exact sortQualitiesDesc_perm info.qualities
    · rw [applyVideoSuccess_qualities, if_pos hlen]
      exact sortQualitiesDesc_sorted info.qualities
    · intro _
      rw [applyVideoSuccess_selectedQuality, if_pos hlen]
    · intro h
      exact absurd h hq

/-- C9 witness: the spec's scenario — metadata with duration 3661 and a
non-empty quality set auto-fills the end time to `"01:01:01"` and resets
the selection to `"auto"`. -/
theorem C9_video_success_witness :
    (applyVideoSuccess initState
        { title := "t", channel := "ch", duration := 3661, thumbnail := "th",
          qualities := [{ id := "q8", width := 1920, height := 1080,
                          bandwidth := 8000000, label := "1080p" }] }).endTime
      = "01:01:01" ∧
    (applyVideoSuccess initState
        { title := "t", channel := "ch", duration := 3661, thumbnail := "th",
          qualities := [{ id := "q8", width := 1920, height := 1080,
                          bandwidth := 8000000, label := "1080p" }] }).selectedQuality
      = "auto" := by
  have h := C9_video_success initState
    { title := "t", channel := "ch", duration := 3661, thumbnail := "th",
      qualities := [{ id := "q8", width := 1920, height := 1080,
                      bandwidth := 8000000, label := "1080p" }] }
  refine ⟨?_, h.2.2.2.2.1 (by decide)⟩
  have he := h.2.1 (by decide)
  rw [he]
  decide

/-! ## Claim C1 -/

/-- C1 (refuted by the code, claim kept as the spec's intent): in the trace
`c1Final` the fetch started for reference R1 resolves after the parsed
reference has changed to R2, and the handler applies R1's result with no
guard — preview and end-time text come to reflect R1's metadata while the
current reference is R2, so the stale result is NOT discarded. -/
theorem C1_stale_result_applied :
    c1Final.parsed = some c1Ref2 ∧
    c1Final.preview
      = some { title := "t1", channel := "c1", thumbnail := "th1",
               duration := some 3661 } ∧
    c1Final.endTime = secondsToHms 3661 ∧
    c1Final.endTime = "01:01:01" := by
  refine ⟨?_, ?_, ?_, ?_⟩ <;> decide

/-! ## Claim C7 -/

lemma burst_foldl (rs : List Ref) :
    ∀ (s : AppState) (t : Ref), s.parsed = some t → s.timer = some t →
      (rs.foldl (fun u x => changeParsed u (some x)) s).parsed
          = some (rs.getLastD t) ∧
        (rs.foldl (fun u x => changeParsed u (some x)) s).timer
          = some (rs.getLastD t) ∧
        (rs.foldl (fun u x => changeParsed u (some x)) s).inflight = s.inflight := by
  induction rs with
  | nil =>
    intro s t hp ht
    exact ⟨by simpa using hp, by simpa using ht, rfl⟩
  | cons r rs ih =>
    intro s t hp ht
    simp only [List.foldl_cons, List.getLastD_cons]
    by_cases hrt : (some r : Option Ref) = s.parsed
    · rw [changeParsed, if_pos hrt]
      have hr : r = t := by
        rw [hp] at hrt
        exact (Option.some_inj.mp hrt)
      subst hr
      exact ih s r hp ht
    · rw [changeParsed, if_neg hrt]
      exact ih _ r rfl rfl

/-- C7: for every burst `r :: rs` of reference changes, each arriving
within the quiet period of the previous one (so no timer fires during the
burst), no fetch is started during the burst, the pending timer always
captures the latest reference, and the single timer expiry after the burst
starts exactly one fetch — for the final reference value. -/
theorem C7_debounce_burst (r : Ref) (rs : List Ref) :
    ((r :: rs).foldl (fun u x => changeParsed u (some x)) initState).inflight = [] ∧
    ((r :: rs).foldl (fun u x => changeParsed u (some x)) initState).timer
      = some (rs.getLastD r) ∧
    (timerFire ((r :: rs).foldl (fun u x => changeParsed u (some x)) initState)).inflight
      = [rs.getLastD r] ∧
    (timerFire ((r :: rs).foldl (fun u x => changeParsed u (some x)) initState)).timer
      = none := by
  have hstep : changeParsed initState (some r)
      = { parsed := some r, timer := some r, fetchingInfo := false, inflight := [],
          preview := none, startTime := "00:00:00", endTime := "", outputDir := "",
          isDownloading := false, installingFfmpeg := false, availableQualities := [],
          selectedQuality := "auto", ffmpegReady := none, toast := none,
          progress := none } := rfl
  obtain ⟨hp, ht, hi⟩ := burst_foldl rs
    { parsed := some r, timer := some r, fetchingInfo := false, inflight := [],
      preview := none, startTime := "00:00:00", endTime := "", outputDir := "",
      isDownloading := false, installingFfmpeg := false, availableQualities := [],
      selectedQuality := "auto", ffmpegReady := none, toast := none, progress := none }
    r rfl rfl
  simp only [List.foldl_cons, hstep]
  refine ⟨hi, ht, ?_, ?_⟩
  · simp [timerFire, ht, hi]
  · simp [timerFire, ht]

/-! ## Claim C3 -/

lemma clampEnd_startTime (s : RangeState) : (clampEnd s).startTime = s.startTime := by
  rw [clampEnd]
  split <;> rfl

lemma clampEnd_duration (s : RangeState) : (clampEnd s).duration = s.duration := by
  rw [clampEnd]
  split <;> rfl

lemma clampStart_endTime (s : RangeState) : (clampStart s).endTime = s.endTime := by
  rw [clampStart]
  split <;> rfl

lemma clampStart_duration (s : RangeState) : (clampStart s).duration = s.duration := by
  rw [clampStart]
  split <;> rfl

lemma clampEnd_end_ok {s : RangeState} (hdur : 0 < s.duration)
    (hend : s.endTime = "" ∨ ∃ e : Int, hmsToSeconds s.endTime = some e ∧ 0 ≤ e) :
    (clampEnd s).endTime = "" ∨
      ∃ e : Int, hmsToSeconds (clampEnd s).endTime = some e ∧ 0 ≤ e ∧
        e ≤ (s.duration : Int) := by
  rw [clampEnd]
  split
  · next h =>
    right
    exact ⟨(s.duration : Int), by simpa using hmsToSeconds_secondsToHms s.duration,
      by omega, by omega⟩
  · next h =>
    rcases hend with hemp | ⟨e, he, he0⟩
    · exact Or.inl hemp
    · by_cases hemp : s.endTime = ""
      · exact Or.inl hemp
      · right
        have hng : ¬ jsGtN (hmsToSeconds s.endTime) (s.duration : Int) = true :=
          fun hg => h ⟨by omega, hemp, hg⟩
        rw [he] at hng
        simp only [jsGtN, decide_eq_true_eq] at hng
        exact ⟨e, he, he0, by omega⟩

lemma clampStart_start_ok {s : RangeState}
    (hstart : ∃ st : Int, hmsToSeconds s.startTime = some st ∧ 0 ≤ st) :
    ∃ st : Int, hmsToSeconds (clampStart s).startTime = some st ∧ 0 ≤ st := by
  rw [clampStart]
  split
  · next h =>
    exact ⟨((s.duration - 60 : Nat) : Int),
      by simpa using hmsToSeconds_secondsToHms (s.duration - 60), by omega⟩
  · next h => exact hstart

lemma reactRange_ok {s : RangeState} (hdur : 0 < s.duration)
    (hstart : ∃ st : Int, hmsToSeconds s.startTime = some st ∧ 0 ≤ st)
    (hend : s.endTime = "" ∨ ∃ e : Int, hmsToSeconds s.endTime = some e ∧ 0 ≤ e) :
    rangeStateOk (reactRange s) := by
  rw [reactRange, rangeStateOk]
  have hd1 := clampEnd_duration s
  have hd2 := clampStart_duration (clampEnd s)
  refine ⟨by rw [hd2, hd1]; exact hdur, ?_, ?_⟩
  · apply clampStart_start_ok
    rw [clampEnd_startTime]
    exact hstart
  · have h := clampEnd_end_ok hdur hend
    rw [clampStart_endTime, hd2, hd1]
    rcases h with hemp | ⟨e, he, he0, hed⟩
    · exact Or.inl hemp
    · exact Or.inr ⟨e, he, he0, hed⟩

lemma applyRangeUpdate_ok {s : RangeState} (h : rangeStateOk s) (u : RangeUpdate)
    (hu : goodUpdate u) : rangeStateOk (applyRangeUpdate s u) := by
  obtain ⟨hdur, hstart, hend⟩ := h
  have hendWeak : s.endTime = "" ∨
      ∃ e : Int, hmsToSeconds s.endTime = some e ∧ 0 ≤ e := by
    rcases hend with he | ⟨e, he, he0, _⟩
    · exact Or.inl he
    · exact Or.inr ⟨e, he, he0⟩
  cases u with
  | setStart v =>
    obtain ⟨n, hn, hn0⟩ := hu
    exact reactRange_ok hdur ⟨n, hn, hn0⟩ hendWeak
  | setEnd v =>
    obtain ⟨n, hn, hn0⟩ := hu
    refine reactRange_ok hdur hstart ?_
    by_cases hv : v = ""
    · exact Or.inl hv
    · exact Or.inr ⟨n, hn, hn0⟩
  | setDuration d =>
    exact reactRange_ok hu hstart hendWeak

lemma foldl_range_ok : ∀ (us : List RangeUpdate) (s : RangeState),
    rangeStateOk s → (∀ u ∈ us, goodUpdate u) →
    rangeStateOk (us.foldl applyRangeUpdate s) := by
  intro us
  induction us with
  | nil =>
    intro s hs _
    exact hs
  | cons u us ih =>
    intro s hs hus
    simp only [List.foldl_cons]
    exact ih _ (applyRangeUpdate_ok hs u (hus u (by simp)))
      (fun x hx => hus x (by simp [hx]))

lemma rangeStateOk_invariant {s : RangeState} (h : rangeStateOk s)
    (he : timeRangeError s = none) : rangeInvariant s := by
  obtain ⟨hdur, ⟨st, hst, hst0⟩, hend⟩ := h
  simp only [timeRangeError] at he
  rw [if_neg (by omega : ¬ s.duration = 0)] at he
  obtain ⟨ee, heff, hee0, heed⟩ : ∃ ee : Int,
      (if s.endTime ≠ "" then hmsToSeconds s.endTime
        else some (s.duration : Int)) = some ee ∧
        0 ≤ ee ∧ ee ≤ (s.duration : Int) := by
    by_cases hne : s.endTime = ""
    · exact ⟨(s.duration : Int), by rw [if_neg (by simp [hne])], by omega, le_refl _⟩
    · rcases hend with hemp | ⟨e, hee, he0, hed⟩
      · exact absurd hemp hne
      · exact ⟨e, by rw [if_pos hne]; exact hee, he0, hed⟩
  rw [heff, hst] at he
  have hlt : st < ee := by
    by_cases hge : jsGeOO (some st) (some ee) = true
    · rw [if_pos hge] at he
      cases he
    · simp only [jsGeOO, decide_eq_true_eq] at hge
      omega
  rw [rangeInvariant]
  refine ⟨st, ee, hst, ?_, hst0, hlt, heed⟩
  rw [effectiveEnd]
  exact heff

/-- C3 counterexample: from the initial state of a video of duration 120,
setting the start text to `"-1:0:0"` (which `parseInt` reads as -3600
seconds) triggers neither clamping reaction, no blocking error is reported,
yet the claimed invariant fails — `0 <= start` does not hold. -/
theorem C3_counterexample :
    timeRangeError (runRange 120 [RangeUpdate.setStart "-1:0:0"]) = none ∧
    hmsToSeconds (runRange 120 [RangeUpdate.setStart "-1:0:0"]).startTime
      = some (-3600) ∧
    ¬ rangeInvariant (runRange 120 [RangeUpdate.setStart "-1:0:0"]) := by
  refine ⟨by decide, by decide, ?_⟩
  rintro ⟨st, ee, hst, hee, h0, hlt, hle⟩
  rw [show hmsToSeconds (runRange 120 [RangeUpdate.setStart "-1:0:0"]).startTime
      = some (-3600) from by decide] at hst
  simp only [Option.some_inj] at hst
  omega

/-- C3 amended: for a video with known (positive) duration, after every
finite sequence of start/end/duration updates in which each time text
parses to an actual non-negative number of seconds and each duration is
positive, either no blocking error is reported and
`0 <= start < effectiveEnd <= duration` holds, or a blocking error is
reported.  (Time texts parsing to a negative number or to `NaN` escape the
corrective reactions and can silently break the lower bound, as the
counterexample shows.) -/
theorem C3_range_invariant (d : Nat) (us : List RangeUpdate) (hd : 0 < d)
    (hus : ∀ u ∈ us, goodUpdate u)
    (he : timeRangeError (runRange d us) = none) :
    rangeInvariant (runRange d us) := by
  apply rangeStateOk_invariant _ he
  rw [runRange]
  apply foldl_range_ok us _ _ hus
  rw [initRange]
  apply reactRange_ok
  · exact hd
  · refine ⟨0, ?_, by omega⟩
    show hmsToSeconds "00:00:00" = some 0
    decide
  · exact Or.inl rfl

/-- C3 witness: duration 120 with end text `"00:01:00"` — a well-formed
update sequence on which no error is reported and the invariant holds. -/
theorem C3_range_invariant_witness :
    rangeInvariant (runRange 120 [RangeUpdate.setEnd "00:01:00"]) := by
  apply C3_range_invariant 120 [RangeUpdate.setEnd "00:01:00"] (by omega) ?_ (by decide)
  intro u hu
  simp only [List.mem_singleton] at hu
  subst hu
  exact ⟨60, by decide, by omega⟩

end Chzzk
